import Mathlib

/-!
Shallow embedding of the data pipeline of the BI_B2MM repository
(`src/core/formatters.py`, `src/core/data_service.py`, the KPI layer of
`src/pages/1_Painel_Geral.py` and the legacy variant in `src/app.py`),
together with theorems settling the specification claims.

Modelling conventions:
* pandas nullable cells (`NaN` / `None` / `NaT`) are `Option` values;
* floats are modelled as `ℚ` (all values appearing in the pipeline are
  decimal fractions, which `ℚ` represents exactly);
* Python `int(x)` truncation toward zero is `pyTrunc`;
* Python `//` and `%` on integers (floor division, nonnegative remainder
  for a positive divisor) are `Int.ediv` / `Int.emod`, which agree with
  Python's semantics whenever the divisor is positive.
-/

namespace BI

/-- Python `int(x)` on a float: truncation toward zero. -/
def pyTrunc (q : ℚ) : ℤ := if 0 ≤ q then ⌊q⌋ else -⌊-q⌋

/-- Python's `\s` character class restricted to ASCII
(space, tab, newline, carriage return, form feed, vertical tab). -/
def pyIsSpace (c : Char) : Bool :=
  c = ' ' || c = '\t' || c = '\n' || c = '\r' || c = '\x0b' || c = '\x0c'

/-- Value of a list of ASCII digit characters read in base 10. -/
def digitsVal (l : List Char) : ℕ :=
  l.foldl (fun a c => 10 * a + (c.toNat - 48)) 0

/-- Parser backing `pd.to_numeric(errors="coerce")` on the cleaned strings
produced by `normalize_currency` (which contain only ASCII digits, `-` and
`.`): an optional leading minus sign, then digits with at most one decimal
point and at least one digit overall.  Anything else coerces to `none`. -/
def parseUnsigned (l : List Char) : Option ℚ :=
  let p := l.span (fun c => c ≠ '.')
  match p.2 with
  | [] =>
      if p.1.all Char.isDigit && !p.1.isEmpty then
        some (digitsVal p.1 : ℚ)
      else none
  | _ :: fp =>
      if p.1.all Char.isDigit && fp.all Char.isDigit
          && !(p.1.isEmpty && fp.isEmpty) then
        some ((digitsVal p.1 : ℚ) + (digitsVal fp : ℚ) / (10 : ℚ) ^ fp.length)
      else none

def parseDecimal (l : List Char) : Option ℚ :=
  match l with
  | [] => parseUnsigned []
  | c :: t =>
      if c = '-' then (parseUnsigned t).map (fun v => -v)
      else parseUnsigned (c :: t)

/-- `pandas.Series.astype(str)` on an object cell: `None` prints as the
string `"None"`, a string stays itself. -/
def pyAstypeStr : Option String → String
  | none => "None"
  | some s => s

/-- `str.replace("R$", "")`: delete every (non-overlapping, left-to-right)
occurrence of the two-character pattern `R$`. -/
def removeRS : List Char → List Char
  | [] => []
  | [c] => [c]
  | c1 :: c2 :: rest =>
      if c1 = 'R' ∧ c2 = '$' then removeRS rest
      else c1 :: removeRS (c2 :: rest)

/-- The character class kept by the regex `[^\d,.-]` replacement step. -/
def keepCurrencyChar (c : Char) : Bool :=
  c.isDigit || c = ',' || c = '.' || c = '-'

/-- One cell of `normalize_currency` (src/core/formatters.py lines 20–29):
`astype(str)`, drop `R$`, drop spaces, keep only `[\d,.-]`, drop `.`
(thousands separators), turn `,` into `.`, then `pd.to_numeric(errors="coerce")`. -/
def normalizeCurrencyCell (x : Option String) : Option ℚ :=
  parseDecimal
    ((((removeRS (pyAstypeStr x).data).filter (fun c => c ≠ ' '))
        |>.filter keepCurrencyChar
        |>.filter (fun c => c ≠ '.'))
        |>.map (fun c => if c = ',' then '.' else c))

/-- `normalize_currency` applied to a whole series. -/
def normalize_currency (series : List (Option String)) : List (Option ℚ) :=
  series.map normalizeCurrencyCell

/-- Round half to even (Python float formatting of `{:.2f}` applies this
at the rounding position). -/
def roundHalfEven (q : ℚ) : ℤ :=
  if q - ⌊q⌋ < 1/2 then ⌊q⌋
  else if q - ⌊q⌋ = 1/2 then (if Even ⌊q⌋ then ⌊q⌋ else ⌊q⌋ + 1)
  else ⌊q⌋ + 1

/-- Insert a separator every three digits counted from the right:
input is the digit list in most-significant-first order. -/
def group3 (sep : Char) (stem : List Char) : List Char :=
  (groupRev (stem.reverse)).reverse
where
  groupRev : List Char → List Char
    | a :: b :: c :: d :: rest => a :: b :: c :: sep :: groupRev (d :: rest)
    | l => l

/-- Left-pad a numeral string with `0` to two digits. -/
def pad2 (n : ℕ) : List Char :=
  let s := (Nat.repr n).data
  if s.length < 2 then '0' :: s else s

/-- `format_currency` (src/core/formatters.py lines 8–11):
`None`/`NaN` renders as `"R$ 0,00"`; otherwise Python's `f"R$ {value:,.2f}"`
(comma thousands groups, two decimals, round-half-even) with the comma and
period swapped, giving `.` as thousands separator and `,` as decimal comma. -/
def format_currency (value : Option ℚ) : String :=
  match value with
  | none => "R$ 0,00"
  | some q =>
      let cents : ℤ := roundHalfEven (q * 100)
      let a : ℕ := cents.natAbs
      let intPart := group3 '.' ((Nat.repr (a / 100)).data)
      let frac := pad2 (a % 100)
      String.mk (('R' :: '$' :: ' ' :: (if cents < 0 then ['-'] else []))
        ++ intPart ++ ',' :: frac)

/-- `format_time_in_stage` (src/core/formatters.py lines 32–40): `NaN`
renders `"N/A"`; otherwise truncate `hours * 60` to whole minutes and split
into days / hours / minutes by floor division, rendering the Portuguese
template `"{days} dias, {hrs} horas, {minutes} minutos"`. -/
def format_time_in_stage (hours : Option ℚ) : String :=
  match hours with
  | none => "N/A"
  | some h =>
      let totalMinutes := pyTrunc (h * 60)
      let days := totalMinutes / 1440
      let rem := totalMinutes % 1440
      let hrs := rem / 60
      let minutes := rem % 60
      Int.repr days ++ " dias, " ++ Int.repr hrs ++ " horas, "
        ++ Int.repr minutes ++ " minutos"

/-- The variant of `format_time_in_stage` defined inline in `src/app.py`
(lines 100–108): same floor-based day/hour/minute breakdown, rendered in
the template `"{days}d {hours}h {minutes}m"`. -/
def format_time_in_stage_app (hours : Option ℚ) : String :=
  match hours with
  | none => "N/A"
  | some h =>
      let totalMinutes := pyTrunc (h * 60)
      let days := totalMinutes / 1440
      let rem := totalMinutes % 1440
      let hrs := rem / 60
      let minutes := rem % 60
      Int.repr days ++ "d " ++ Int.repr hrs ++ "h " ++ Int.repr minutes ++ "m"

/-- Case-insensitive match of a literal pattern at the head of the input,
returning the matched characters (in their original case) and the rest. -/
def ciMatch : List Char → List Char → Option (List Char × List Char)
  | [], rest => some ([], rest)
  | _ :: _, [] => none
  | p :: ps, c :: cs =>
      if c.toLower = p.toLower then
        (ciMatch ps cs).map (fun q => (c :: q.1, q.2))
      else none

/-- Attempt the regex `(PRE\s*\d+)` (with `re.IGNORECASE`) at the current
position: the literal prefix case-insensitively, then greedy whitespace,
then at least one digit; returns the matched text. -/
def matchCodeAt (pre : List Char) (l : List Char) : Option (List Char) :=
  match ciMatch pre l with
  | none => none
  | some q =>
      let sp := q.2.takeWhile pyIsSpace
      let afterSp := q.2.dropWhile pyIsSpace
      let ds := afterSp.takeWhile Char.isDigit
      if ds.isEmpty then none else some (q.1 ++ sp ++ ds)

/-- `re.search`: try the pattern at each position left to right and return
the first (leftmost) match. -/
def searchCode (pre : List Char) : List Char → Option (List Char)
  | [] => matchCodeAt pre []
  | c :: t =>
      match matchCodeAt pre (c :: t) with
      | some m => some m
      | none => searchCode pre t

/-- `_extract_oc_identifier` (src/core/data_service.py lines 30–39): for a
string title, search `(OC\s*\d+)` case-insensitively; on a match return the
matched text with space characters removed (`.replace(" ", "")`); otherwise
search `(CTE\s*\d+)` the same way; otherwise (or for a non-string input)
return `None`. -/
def extract_oc_identifier (title : Option String) : Option String :=
  match title with
  | none => none
  | some t =>
      match searchCode ['O', 'C'] t.data with
      | some m => some (String.mk (m.filter (fun c => c ≠ ' ')))
      | none =>
          match searchCode ['C', 'T', 'E'] t.data with
          | some m => some (String.mk (m.filter (fun c => c ≠ ' ')))
          | none => none

/-- A parsed calendar timestamp (the pipeline's `datetime64` values). -/
structure DateTime where
  year : ℕ
  month : ℕ
  day : ℕ
  hour : ℕ
  minute : ℕ
  second : ℕ
  deriving DecidableEq, Repr

/-- Gregorian leap-year test. -/
def isLeap (y : ℕ) : Bool := (y % 4 = 0 && y % 100 ≠ 0) || y % 400 = 0

/-- Number of days of month `m` of year `y` (months counted 1–12). -/
def daysInMonth (y m : ℕ) : ℕ :=
  if m = 2 then (if isLeap y then 29 else 28)
  else if m = 4 || m = 6 || m = 9 || m = 11 then 30
  else 31

/-- Days from 1970-01-01 to the given civil date (Gregorian), negative for
earlier dates. -/
def daysFromCivil (y m d : ℤ) : ℤ :=
  let y' := if m ≤ 2 then y - 1 else y
  let era := (if 0 ≤ y' then y' else y' - 399).ediv 400
  let yoe := y' - era * 400
  let mp := (m + 9).emod 12
  let doy := (153 * mp + 2).ediv 5 + d - 1
  let doe := yoe * 365 + yoe.ediv 4 - yoe.ediv 100 + doy
  era * 146097 + doe - 719468

/-- Seconds since the Unix epoch of a timestamp (what `total_seconds`
differences are computed from). -/
def toEpoch (t : DateTime) : ℤ :=
  86400 * daysFromCivil t.year t.month t.day
    + 3600 * t.hour + 60 * t.minute + t.second

/-- Read one or two leading ASCII digits (greedy), as `strptime`'s numeric
directives `%d`, `%m`, `%H`, `%M`, `%S` do. -/
def takeDigits2 : List Char → Option (ℕ × List Char)
  | [] => none
  | a :: rest =>
      if a.isDigit then
        match rest with
        | b :: rest' =>
            if b.isDigit then some (10 * (a.toNat - 48) + (b.toNat - 48), rest')
            else some (a.toNat - 48, rest)
        | [] => some (a.toNat - 48, [])
      else none

/-- Read exactly four leading ASCII digits (`strptime`'s `%Y`). -/
def takeDigits4 : List Char → Option (ℕ × List Char)
  | a :: b :: c :: d :: rest =>
      if a.isDigit && b.isDigit && c.isDigit && d.isDigit then
        some (1000 * (a.toNat - 48) + 100 * (b.toNat - 48)
          + 10 * (c.toNat - 48) + (d.toNat - 48), rest)
      else none
  | _ => none

/-- Require a literal character. -/
def expectChar (c : Char) : List Char → Option (List Char)
  | x :: rest => if x = c then some rest else none
  | [] => none

/-- One cell of `pd.to_datetime(errors="coerce", format="%d/%m/%Y %H:%M:%S")`
(src/core/data_service.py lines 68–70): the whole string must match the
format exactly — day, month, hour, minute, second as one or two digits,
year as four digits, with the literal separators — and denote a real
calendar date; anything else (including a date with no time-of-day)
coerces to `none` (`NaT`).  The parse is total: it never raises. -/
def pdToDatetimeCell (x : Option String) : Option DateTime :=
  match x with
  | none => none
  | some s =>
      match takeDigits2 s.data with
      | none => none
      | some (d, r1) =>
        match expectChar '/' r1 with
        | none => none
        | some r2 =>
          match takeDigits2 r2 with
          | none => none
          | some (m, r3) =>
            match expectChar '/' r3 with
            | none => none
            | some r4 =>
              match takeDigits4 r4 with
              | none => none
              | some (y, r5) =>
                match expectChar ' ' r5 with
                | none => none
                | some r6 =>
                  match takeDigits2 r6 with
                  | none => none
                  | some (hh, r7) =>
                    match expectChar ':' r7 with
                    | none => none
                    | some r8 =>
                      match takeDigits2 r8 with
                      | none => none
                      | some (mi, r9) =>
                        match expectChar ':' r9 with
                        | none => none
                        | some r10 =>
                          match takeDigits2 r10 with
                          | none => none
                          | some (ss, r11) =>
                            if r11 = [] ∧ 1 ≤ m ∧ m ≤ 12 ∧ 1 ≤ d
                                ∧ d ≤ daysInMonth y m ∧ hh ≤ 23
                                ∧ mi ≤ 59 ∧ ss ≤ 59 then
                              some ⟨y, m, d, hh, mi, ss⟩
                            else none

/-- Normalisation of one `Prob %` cell (src/core/data_service.py lines
58–66): drop `%`, `,` becomes `.`, drop spaces, `pd.to_numeric(errors="coerce")`. -/
def normalizeProbCell (x : Option String) : Option ℚ :=
  parseDecimal
    ((((pyAstypeStr x).data.filter (fun c => c ≠ '%')).map
        (fun c => if c = ',' then '.' else c)).filter (fun c => c ≠ ' '))

/-- A raw spreadsheet row (the fields of `BI_B2` used by the pipeline);
every cell is a nullable string as delivered by `get_all_values`. -/
structure RawRow where
  titulo : Option String
  estagio : Option String
  estado : Option String
  valor : Option String
  valorRecFechamento : Option String
  dataAbertura : Option String
  dataFechamento : Option String
  prob : Option String
  deriving DecidableEq, Repr

/-- A row of the main normalized table produced by `load_datasets`:
the original categorical cells plus the parsed/derived columns. -/
structure NRow where
  titulo : Option String
  estagio : Option String
  estado : Option String
  valor : Option ℚ
  valorRecFechamento : Option ℚ
  prob : Option ℚ
  dataAbertura : Option DateTime
  dataFechamento : Option DateTime
  ocIdentifier : Option String
  hourOfDayAbertura : ℤ
  deriving DecidableEq, Repr

/-- The per-row part of `load_datasets` (src/core/data_service.py lines
55–77): currency and probability normalisation, date parsing, identifier
extraction, hour-of-day feature (`-1` when the open date is null). -/
def normalizeRow (r : RawRow) : NRow :=
  let ab := pdToDatetimeCell r.dataAbertura
  { titulo := r.titulo
    estagio := r.estagio
    estado := r.estado
    valor := normalizeCurrencyCell r.valor
    valorRecFechamento := normalizeCurrencyCell r.valorRecFechamento
    prob := normalizeProbCell r.prob
    dataAbertura := ab
    dataFechamento := pdToDatetimeCell r.dataFechamento
    ocIdentifier := extract_oc_identifier r.titulo
    hourOfDayAbertura := match ab with | some t => (t.hour : ℤ) | none => -1 }

/-- A timeline row before duration computation: the four selected columns
after `dropna(subset=["OC_Identifier", "Data de abertura"])`, tagged with
the original row index (pandas keeps the original index through `dropna`
and `sort_values`). -/
structure TRow where
  idx : ℕ
  ocIdentifier : String
  estagio : Option String
  dataAbertura : DateTime
  dataFechamento : Option DateTime
  deriving DecidableEq, Repr

/-- The sort key of `sort_values(by=["OC_Identifier", "Data de abertura"])`:
lexicographic on (identifier string, open timestamp).  With several `by`
columns pandas sorts via `numpy.lexsort`, which is stable, so the embedding
uses Lean's stable `mergeSort`. -/
def timelineLE (a b : TRow) : Bool :=
  decide (a.ocIdentifier < b.ocIdentifier
    ∨ (a.ocIdentifier = b.ocIdentifier
        ∧ toEpoch a.dataAbertura ≤ toEpoch b.dataAbertura))

/-- `Time_in_Stage` of one timeline row (src/core/data_service.py lines
83–92): `(close − open)` in hours when the close timestamp is present,
else `(now − open)` in hours, where `now` is the single
`pd.to_datetime("now")` captured once per run. -/
def timeInStageOf (now : DateTime) (t : TRow) : ℚ :=
  match t.dataFechamento with
  | some f => ((toEpoch f - toEpoch t.dataAbertura : ℤ) : ℚ) / 3600
  | none => ((toEpoch now - toEpoch t.dataAbertura : ℤ) : ℚ) / 3600

/-- A finished timeline row with its duration and formatted duration. -/
structure TimelineRow extends TRow where
  timeInStage : ℚ
  tempoNoEstagio : String
  deriving DecidableEq, Repr

/-- The rows surviving `dropna(subset=["OC_Identifier", "Data de abertura"])`,
tagged with their original positions starting at `k`. -/
def timelinePreFrom (k : ℕ) : List NRow → List TRow
  | [] => []
  | r :: rest =>
      match r.ocIdentifier, r.dataAbertura with
      | some oc, some ab =>
          ⟨k, oc, r.estagio, ab, r.dataFechamento⟩ :: timelinePreFrom (k + 1) rest
      | _, _ => timelinePreFrom (k + 1) rest

/-- The rows surviving `dropna(subset=["OC_Identifier", "Data de abertura"])`,
tagged with their original positions. -/
def timelinePre (df : List NRow) : List TRow :=
  timelinePreFrom 0 df

/-- `load_datasets` (src/core/data_service.py lines 50–96) on an already
fetched sheet: the main normalized table keeps every input row; the
timeline table drops rows with null identifier or null open date, sorts
stably by (identifier, open date) and computes `Time_in_Stage` and its
formatted rendering, using the one `now` of the run for all open rows. -/
def load_datasets (rows : List RawRow) (now : DateTime) :
    List NRow × List TimelineRow :=
  let df := rows.map normalizeRow
  let sorted := (timelinePre df).mergeSort timelineLE
  (df, sorted.map (fun t =>
    { toTRow := t
      timeInStage := timeInStageOf now t
      tempoNoEstagio := format_time_in_stage (some (timeInStageOf now t)) }))

/-- `Series.sum()` with the pandas defaults (`skipna=True`, `min_count=0`):
null entries contribute nothing, and an all-null (or empty) series sums
to the literal `0`. -/
def seriesSum (xs : List (Option ℚ)) : ℚ := (xs.filterMap id).sum

/-- `Series.sum(min_count=1)`: null entries contribute nothing, and an
all-null (or empty) series yields `NaN` (`none`) instead of `0`. -/
def seriesSumMin1 (xs : List (Option ℚ)) : Option ℚ :=
  match xs.filterMap id with
  | [] => none
  | l => some l.sum

/-- The won-value series of `render_kpis` (src/pages/1_Painel_Geral.py
lines 115–122): rows with `Estado == "Ganha"`, taking
`Valor rec. fechamento` where present and falling back to `Valor`. -/
def wonValues (df : List NRow) : List (Option ℚ) :=
  (df.filter (fun r => r.estado = some "Ganha")).map
    (fun r => match r.valorRecFechamento with
      | some v => some v
      | none => r.valor)

/-- `total_won_value = won_values.sum()` (plain `sum`, `min_count=0`). -/
def total_won_value (df : List NRow) : ℚ := seriesSum (wonValues df)

/-- The pipeline mask `~filtered_df["Estado"].isin(["Ganha", "Perdida"])`. -/
def pipelineMask (r : NRow) : Bool :=
  !(r.estado = some "Ganha" || r.estado = some "Perdida")

/-- `valor_pipeline = filtered_df.loc[mask, "Valor"].sum(min_count=1)`. -/
def valor_pipeline (df : List NRow) : Option ℚ :=
  seriesSumMin1 ((df.filter pipelineMask).map (fun r => r.valor))

/-- `valor_previsto = (Valor * (Prob % / 100)).sum(min_count=1)`; the
element-wise product is null when either factor is null. -/
def valor_previsto (df : List NRow) : Option ℚ :=
  seriesSumMin1 (df.map (fun r =>
    match r.valor, r.prob with
    | some v, some p => some (v * (p / 100))
    | _, _ => none))

/-- Does `pat` occur at the head of the input? (building block of Python's
substring containment `in`). -/
def leadMatch : List Char → List Char → Bool
  | [], _ => true
  | _ :: _, [] => false
  | p :: ps, c :: cs => p = c && leadMatch ps cs

/-- Python's substring containment `pat in s`. -/
def hasSub (pat : List Char) : List Char → Bool
  | [] => leadMatch pat []
  | c :: t => leadMatch pat (c :: t) || hasSub pat t

/-- The coarse stage-group buckets of spec §4.5. -/
inductive StageGroup
  | qualification
  | negotiation
  | closing
  | won
  | lost
  | other
  deriving DecidableEq, Repr

/-- Modelled from the spec: the coarse stage-group classification of
spec §4.5 has no implementation under `src/` (the spec attributes it to
near-duplicate app variants outside the tree), so it is rendered here from
the spec's words: keyword containment checks against an uppercased copy of
the label, in a fixed priority order (qualification, negotiation, closing,
won, lost), first match wins; a null or unmatched label maps to the
"other"/"not informed" bucket.  (Uppercasing is per-character ASCII
`Char.toUpper`, the executable rendering of the spec's "uppercased copy".) -/
def classifyStage (label : Option String) : StageGroup :=
  match label with
  | none => StageGroup.other
  | some s =>
      let u := s.data.map Char.toUpper
      if hasSub "QUALIFIC".data u then StageGroup.qualification
      else if hasSub "NEGOCIA".data u then StageGroup.negotiation
      else if hasSub "FECHAMENTO".data u then StageGroup.closing
      else if hasSub "GANH".data u then StageGroup.won
      else if hasSub "PERD".data u then StageGroup.lost
      else StageGroup.other

/-! ## Spec-side renderings used for refinement comparisons -/

/-- Rendering of a signed amount of cents with a period as thousands
separator and a comma as decimal separator, written from the claim's own
wording, to be compared against the code's `format_currency`. -/
def specCurrencyRender (z : ℤ) : String :=
  String.mk (('R' :: '$' :: ' ' :: (if z < 0 then ['-'] else []))
    ++ group3 '.' ((Nat.repr (z.natAbs / 100)).data) ++ ',' :: pad2 (z.natAbs % 100))

/-! ## General lemmas about the embedded operations -/

theorem roundHalfEven_intCast (z : ℤ) : roundHalfEven (z : ℚ) = z := by
  simp [roundHalfEven, Int.floor_intCast]

theorem pyTrunc_of_nonneg {q : ℚ} (h : 0 ≤ q) : pyTrunc q = ⌊q⌋ := by
  simp [pyTrunc, h]

theorem pyTrunc_intCast (z : ℤ) : pyTrunc ((z : ℤ) : ℚ) = z := by
  unfold pyTrunc
  split
  · exact Int.floor_intCast z
  · rw [← Int.cast_neg, Int.floor_intCast]
    ring

theorem removeRS_of_not_R : ∀ {l : List Char}, (∀ c ∈ l, c ≠ 'R') → removeRS l = l := by
  intro l
  induction l using removeRS.induct <;> intro h <;> simp_all [removeRS]

theorem mem_removeRS : ∀ {l : List Char} {c : Char}, c ∈ removeRS l → c ∈ l := by
  intro l
  induction l using removeRS.induct with
  | case1 => intro c h; exact absurd h (by simp [removeRS])
  | case2 c => intro x h; simpa [removeRS] using h
  | case3 c1 c2 rest hcond ih =>
      intro x h
      rw [removeRS] at h
      simp only [hcond, if_true] at h
      have := ih h
      simp_all
  | case4 c1 c2 rest hcond ih =>
      intro x h
      rw [removeRS] at h
      simp only [hcond, if_false] at h
      rcases List.mem_cons.mp h with h | h
      · simp [h]
      · have := ih h
        simp_all

theorem digit_ne_dot {c : Char} (h : c.isDigit = true) : c ≠ '.' := by
  intro e
  subst e
  exact absurd h (by decide)

theorem span_all_stop {p : Char → Bool} :
    ∀ (l1 : List Char) {x : Char} (l2 : List Char),
    (∀ c ∈ l1, p c = true) → p x = false →
    (l1 ++ x :: l2).span p = (l1, x :: l2) := by
  intro l1
  induction l1 with
  | nil =>
      intro x l2 _ hx
      rw [List.span_eq_take_drop]
      simp [List.takeWhile_cons, List.dropWhile_cons, hx]
  | cons c cs ih =>
      intro x l2 h hx
      have hc : p c = true := h c (by simp)
      have hrest := ih l2 (fun d hd => h d (by simp [hd])) hx
      rw [List.span_eq_take_drop] at hrest ⊢
      have h1 := congrArg Prod.fst hrest
      have h2 := congrArg Prod.snd hrest
      simp only at h1 h2
      rw [List.cons_append]
      simp [List.takeWhile_cons, List.dropWhile_cons, hc, h1, h2]

/-- `parseUnsigned` on a cleaned string of the shape `digits "." digits`
(nonempty integer part) yields the represented decimal fraction. -/
theorem parseUnsigned_int_frac {ip fp : List Char}
    (h1 : ∀ c ∈ ip, c.isDigit = true) (hne : ip ≠ [])
    (h2 : ∀ c ∈ fp, c.isDigit = true) :
    parseUnsigned (ip ++ '.' :: fp)
      = some ((digitsVal ip : ℚ) + (digitsVal fp : ℚ) / (10 : ℚ) ^ fp.length) := by
  have hspan : (ip ++ '.' :: fp).span (fun d => decide (d ≠ '.')) = (ip, '.' :: fp) := by
    refine span_all_stop ip fp ?_ (by simp)
    intro d hd
    simpa using digit_ne_dot (h1 d hd)
  have hall : ip.all Char.isDigit = true := List.all_eq_true.mpr h1
  have hall2 : fp.all Char.isDigit = true := List.all_eq_true.mpr h2
  have hemp : ip.isEmpty = false := by
    cases ip with
    | nil => exact absurd rfl hne
    | cons a as => rfl
  simp only [parseUnsigned, hspan, hall, hall2, hemp, Bool.and_true, Bool.true_and,
    Bool.false_and, Bool.not_false, if_true]

/-- `parseUnsigned` never accepts a digit-free string. -/
theorem parseUnsigned_no_digit {l : List Char}
    (h : ∀ c ∈ l, c.isDigit = false) : parseUnsigned l = none := by
  have htwmem : ∀ c ∈ l.takeWhile (fun d => decide (d ≠ '.')), c ∈ l := fun c hc =>
    (List.takeWhile_sublist _).mem hc
  have hdwmem : ∀ c ∈ l.dropWhile (fun d => decide (d ≠ '.')), c ∈ l := fun c hc =>
    (List.dropWhile_sublist _).mem hc
  simp only [parseUnsigned, List.span_eq_take_drop]
  cases hdwc : l.dropWhile (fun d => decide (d ≠ '.')) with
  | nil =>
      cases htwc : l.takeWhile (fun d => decide (d ≠ '.')) with
      | nil => simp
      | cons a as =>
          have ha : a.isDigit = false :=
            h a (htwmem a (by rw [htwc]; exact List.mem_cons_self a as))
          simp only [List.all_cons, ha, Bool.false_and, Bool.false_eq_true, if_false]
  | cons d fp =>
      cases htwc : l.takeWhile (fun d => decide (d ≠ '.')) with
      | nil =>
          cases hfp : fp with
          | nil => simp
          | cons b bs =>
              have hb : b.isDigit = false := by
                refine h b (hdwmem b ?_)
                rw [hdwc, hfp]
                simp
              simp only [List.all_cons, hb, Bool.false_and, Bool.and_false,
                Bool.false_eq_true, if_false]
      | cons a as =>
          have ha : a.isDigit = false :=
            h a (htwmem a (by rw [htwc]; exact List.mem_cons_self a as))
          simp only [List.all_cons, ha, Bool.false_and, Bool.false_eq_true, if_false]

/-- `parseDecimal` never accepts a digit-free string. -/
theorem parseDecimal_no_digit {l : List Char}
    (h : ∀ c ∈ l, c.isDigit = false) : parseDecimal l = none := by
  cases l with
  | nil => decide
  | cons c t =>
      simp only [parseDecimal]
      split
      · rw [parseUnsigned_no_digit (fun d hd => h d (by simp [hd]))]
        rfl
      · exact parseUnsigned_no_digit h

/-- `parseDecimal` on a cleaned string of the shape `digits "." digits`
(nonempty integer part) yields the represented decimal fraction. -/
theorem parseDecimal_int_frac {ip fp : List Char}
    (h1 : ∀ c ∈ ip, c.isDigit = true) (hne : ip ≠ [])
    (h2 : ∀ c ∈ fp, c.isDigit = true) :
    parseDecimal (ip ++ '.' :: fp)
      = some ((digitsVal ip : ℚ) + (digitsVal fp : ℚ) / (10 : ℚ) ^ fp.length) := by
  cases ip with
  | nil => exact absurd rfl hne
  | cons c cs =>
      have hc : c.isDigit = true := h1 c (by simp)
      have hcne : ¬(c = '-') := by
        intro e
        subst e
        exact absurd hc (by decide)
      rw [List.cons_append, parseDecimal, if_neg hcne, ← List.cons_append]
      exact parseUnsigned_int_frac h1 hne h2

/-- The full currency-cleaning chain on a well-formed localized currency
string: optional `R$ ` symbol, an integer part `ds` of digits with
arbitrarily placed `.` thousands separators, a decimal comma, and a
fractional digit part `fs`. -/
theorem normalizeCurrencyCell_wellformed {sym : Bool} {ds fs : List Char}
    (hds : ∀ c ∈ ds, c.isDigit = true ∨ c = '.')
    (hne : ds.filter Char.isDigit ≠ [])
    (hfs : ∀ c ∈ fs, c.isDigit = true) :
    normalizeCurrencyCell (some (String.mk
        ((if sym then ['R', '$', ' '] else []) ++ ds ++ ',' :: fs)))
      = some ((digitsVal (ds.filter Char.isDigit) : ℚ)
          + (digitsVal fs : ℚ) / (10 : ℚ) ^ fs.length) := by
  have hnoR : ∀ c ∈ ds ++ ',' :: fs, c ≠ 'R' := by
    intro c hc
    rcases List.mem_append.mp hc with h | h
    · rcases hds c h with h' | h'
      · intro e
        subst e
        exact absurd h' (by decide)
      · subst h'
        decide
    · rcases List.mem_cons.mp h with h' | h'
      · subst h'
        decide
      · intro e
        subst e
        exact absurd (hfs _ h') (by decide)
  have h1 : removeRS ((if sym then ['R', '$', ' '] else []) ++ ds ++ ',' :: fs)
      = (if sym then [' '] else []) ++ (ds ++ ',' :: fs) := by
    cases sym with
    | false =>
        simp only [if_neg Bool.false_ne_true, List.nil_append]
        exact removeRS_of_not_R hnoR
    | true =>
        have : removeRS (' ' :: (ds ++ ',' :: fs)) = ' ' :: (ds ++ ',' :: fs) := by
          refine removeRS_of_not_R ?_
          intro c hc
          rcases List.mem_cons.mp hc with h | h
          · subst h
            decide
          · exact hnoR c h
        simpa [removeRS] using this
  have h2 : ((if sym then [' '] else []) ++ (ds ++ ',' :: fs)).filter
        (fun c => c ≠ ' ') = ds ++ ',' :: fs := by
    rw [List.filter_append]
    have hl : ((if sym then [' '] else [] : List Char)).filter (fun c => c ≠ ' ') = [] := by
      cases sym <;> simp
    rw [hl, List.nil_append]
    rw [List.filter_eq_self]
    intro c hc
    rcases List.mem_append.mp hc with h | h
    · rcases hds c h with h' | h'
      · simpa using fun e => absurd (e ▸ h') (by decide)
      · subst h'
        decide
    · rcases List.mem_cons.mp h with h' | h'
      · subst h'
        decide
      · simpa using fun e => absurd (e ▸ hfs c h') (by decide)
  have h3 : (ds ++ ',' :: fs).filter keepCurrencyChar = ds ++ ',' :: fs := by
    rw [List.filter_eq_self]
    intro c hc
    rcases List.mem_append.mp hc with h | h
    · rcases hds c h with h' | h'
      · simp [keepCurrencyChar, h']
      · subst h'
        decide
    · rcases List.mem_cons.mp h with h' | h'
      · subst h'
        decide
      · simp [keepCurrencyChar, hfs c h']
  have h4 : (ds ++ ',' :: fs).filter (fun c => c ≠ '.')
      = ds.filter Char.isDigit ++ ',' :: fs := by
    rw [List.filter_append]
    congr 1
    · refine List.filter_congr ?_
      intro c hc
      rcases hds c hc with h' | h'
      · simp [h', digit_ne_dot h']
      · subst h'
        decide
    · rw [List.filter_eq_self]
      intro c hc
      rcases List.mem_cons.mp hc with h' | h'
      · subst h'
        decide
      · simpa using digit_ne_dot (hfs c h')
  have h5 : (ds.filter Char.isDigit ++ ',' :: fs).map
        (fun c => if c = ',' then '.' else c)
      = ds.filter Char.isDigit ++ '.' :: fs := by
    rw [List.map_append]
    congr 1
    · conv_rhs => rw [← List.map_id (ds.filter Char.isDigit)]
      refine List.map_congr_left ?_
      intro c hc
      have hcd : Char.isDigit c := List.of_mem_filter hc
      have : c ≠ ',' := fun e => absurd (e ▸ hcd) (by decide)
      simp [this]
    · simp only [List.map_cons, if_pos rfl]
      congr 1
      conv_rhs => rw [← List.map_id fs]
      refine List.map_congr_left ?_
      intro c hc
      have : c ≠ ',' := fun e => absurd (e ▸ hfs c hc) (by decide)
      simp [this]
  show parseDecimal _ = _
  rw [show (pyAstypeStr (some (String.mk
      ((if sym then ['R', '$', ' '] else []) ++ ds ++ ',' :: fs)))).data
      = (if sym then ['R', '$', ' '] else []) ++ ds ++ ',' :: fs from rfl,
    h1, h2, h3, h4, h5]
  refine parseDecimal_int_frac ?_ hne hfs
  intro c hc
  exact List.of_mem_filter hc

/-- The ASCII digit character of a value below ten. -/
def digitChar48 (n : ℕ) : Char := Char.ofNat (48 + n)

/-- Zero-padded two-digit rendering of `n ≤ 99`. -/
def render2 (n : ℕ) : List Char := [digitChar48 (n / 10), digitChar48 (n % 10)]

/-- Zero-padded four-digit rendering of `n ≤ 9999`. -/
def render4 (n : ℕ) : List Char :=
  [digitChar48 (n / 1000 % 10), digitChar48 (n / 100 % 10),
   digitChar48 (n / 10 % 10), digitChar48 (n % 10)]

/-- A canonical `"%d/%m/%Y %H:%M:%S"` string for the given components
(spec-side constructor of well-formed localized date-time strings). -/
def renderDMY (d m y hh mi ss : ℕ) : String :=
  String.mk (render2 d ++ '/' :: (render2 m ++ '/' :: (render4 y ++ ' ' ::
    (render2 hh ++ ':' :: (render2 mi ++ ':' :: render2 ss)))))

theorem digitChar48_isDigit {n : ℕ} (h : n < 10) :
    (digitChar48 n).isDigit = true := by
  interval_cases n <;> decide

theorem digitChar48_val {n : ℕ} (h : n < 10) : (digitChar48 n).toNat - 48 = n := by
  interval_cases n <;> decide

theorem takeDigits2_render2 {n : ℕ} (h : n ≤ 99) (rest : List Char) :
    takeDigits2 (render2 n ++ rest) = some (n, rest) := by
  have h1 : n / 10 < 10 := by omega
  have h2 : n % 10 < 10 := by omega
  simp only [render2, List.cons_append, List.nil_append, takeDigits2,
    digitChar48_isDigit h1, digitChar48_isDigit h2, if_true]
  rw [digitChar48_val h1, digitChar48_val h2]
  congr 1
  congr 1
  omega

theorem takeDigits4_render4 {n : ℕ} (h : n ≤ 9999) (rest : List Char) :
    takeDigits4 (render4 n ++ rest) = some (n, rest) := by
  have h1 : n / 1000 % 10 < 10 := by omega
  have h2 : n / 100 % 10 < 10 := by omega
  have h3 : n / 10 % 10 < 10 := by omega
  have h4 : n % 10 < 10 := by omega
  simp only [render4, List.cons_append, List.nil_append, takeDigits4,
    digitChar48_isDigit h1, digitChar48_isDigit h2, digitChar48_isDigit h3,
    digitChar48_isDigit h4, Bool.and_self, if_true]
  rw [digitChar48_val h1, digitChar48_val h2, digitChar48_val h3, digitChar48_val h4]
  congr 1
  congr 1
  omega

theorem daysInMonth_le (y m : ℕ) : daysInMonth y m ≤ 31 := by
  unfold daysInMonth
  split
  · split <;> omega
  · split <;> omega

theorem expectChar_cons (c : Char) (rest : List Char) :
    expectChar c (c :: rest) = some rest := by
  simp [expectChar]

theorem timelineLE_trans (a b c : TRow) (h1 : timelineLE a b = true)
    (h2 : timelineLE b c = true) : timelineLE a c = true := by
  simp only [timelineLE, decide_eq_true_eq] at h1 h2 ⊢
  rcases h1 with h1 | ⟨e1, l1⟩ <;> rcases h2 with h2 | ⟨e2, l2⟩
  · exact Or.inl (lt_trans h1 h2)
  · exact Or.inl (e2 ▸ h1)
  · exact Or.inl (e1 ▸ h2)
  · exact Or.inr ⟨e1.trans e2, le_trans l1 l2⟩

theorem timelineLE_total (a b : TRow) :
    (timelineLE a b || timelineLE b a) = true := by
  simp only [timelineLE, Bool.or_eq_true, decide_eq_true_eq]
  rcases lt_trichotomy a.ocIdentifier b.ocIdentifier with h | h | h
  · exact Or.inl (Or.inl h)
  · rcases le_total (toEpoch a.dataAbertura) (toEpoch b.dataAbertura) with h' | h'
    · exact Or.inl (Or.inr ⟨h, h'⟩)
    · exact Or.inr (Or.inr ⟨h.symm, h'⟩)
  · exact Or.inr (Or.inl h)

theorem timelineLE_of_eq {a b : TRow} (h1 : a.ocIdentifier = b.ocIdentifier)
    (h2 : toEpoch a.dataAbertura = toEpoch b.dataAbertura) :
    timelineLE a b = true := by
  simp only [timelineLE, decide_eq_true_eq]
  exact Or.inr ⟨h1, le_of_eq h2⟩

/-- Every row of `timelinePreFrom k df` originates from a position `j` of
`df` whose identifier and open date are non-null, and carries index
`k + j` and that row's fields. -/
theorem timelinePreFrom_mem {t : TRow} : ∀ {k : ℕ} {df : List NRow},
    t ∈ timelinePreFrom k df →
    ∃ j r, df[j]? = some r ∧ t.idx = k + j
      ∧ r.ocIdentifier = some t.ocIdentifier
      ∧ r.dataAbertura = some t.dataAbertura
      ∧ r.estagio = t.estagio
      ∧ r.dataFechamento = t.dataFechamento := by
  intro k df
  induction df generalizing k with
  | nil =>
      intro h
      exact absurd h (by simp [timelinePreFrom])
  | cons r rest ih =>
      intro h
      rw [timelinePreFrom] at h
      rcases hoc : r.ocIdentifier with _ | oc <;>
        rcases hab : r.dataAbertura with _ | ab <;>
        simp only [hoc, hab] at h
      · rcases ih h with ⟨j, r', hj, hidx, hrest⟩
        exact ⟨j + 1, r', by simpa using hj, by omega, hrest⟩
      · rcases ih h with ⟨j, r', hj, hidx, hrest⟩
        exact ⟨j + 1, r', by simpa using hj, by omega, hrest⟩
      · rcases ih h with ⟨j, r', hj, hidx, hrest⟩
        exact ⟨j + 1, r', by simpa using hj, by omega, hrest⟩
      · rcases List.mem_cons.mp h with h | h
        · subst h
          exact ⟨0, r, by simp, by simp, by simp [hoc], by simp [hab], rfl, rfl⟩
        · rcases ih h with ⟨j, r', hj, hidx, hrest⟩
          exact ⟨j + 1, r', by simpa using hj, by omega, hrest⟩

/-- Conversely, every position of `df` with non-null identifier and open
date produces a timeline row with the matching index and fields. -/
theorem timelinePreFrom_mem_of : ∀ {k j : ℕ} {df : List NRow} {r : NRow},
    df[j]? = some r → ∀ {oc : String} {ab : DateTime},
    r.ocIdentifier = some oc → r.dataAbertura = some ab →
    (⟨k + j, oc, r.estagio, ab, r.dataFechamento⟩ : TRow)
      ∈ timelinePreFrom k df := by
  intro k j df
  induction df generalizing k j with
  | nil =>
      intro r h
      simp at h
  | cons r0 rest ih =>
      intro r h oc ab hoc hab
      cases j with
      | zero =>
          simp only [List.getElem?_cons_zero, Option.some.injEq] at h
          subst h
          rw [timelinePreFrom]
          simp only [hoc, hab]
          exact List.mem_cons_self _ _
      | succ j' =>
          simp only [List.getElem?_cons_succ] at h
          have hmem := ih (k := k + 1) h hoc hab
          rw [timelinePreFrom]
          rcases h0 : r0.ocIdentifier with _ | oc0 <;>
            rcases h1 : r0.dataAbertura with _ | ab0 <;>
            simp only [h0, h1]
          all_goals
            first
            | (convert hmem using 2; omega)
            | (refine List.mem_cons_of_mem _ ?_; convert hmem using 2; omega)

/-! ## Claim theorems -/

/-- C1: `normalize_currency` maps every entry of the series (it never
raises and never drops entries); a well-formed localized currency string —
with or without the `R$` symbol, with thousands separators or not — maps to
its exact decimal value; `None`, empty, and digit-free (non-numeric)
entries map to null.  The two concrete convention examples of the spec are
included. -/
theorem normalize_currency_spec :
    (∀ xs : List (Option String), (normalize_currency xs).length = xs.length)
    ∧ (∀ (sym : Bool) (ds fs : List Char),
        (∀ c ∈ ds, c.isDigit = true ∨ c = '.') →
        ds.filter Char.isDigit ≠ [] →
        (∀ c ∈ fs, c.isDigit = true) →
        normalizeCurrencyCell (some (String.mk
            ((if sym then ['R', '$', ' '] else []) ++ ds ++ ',' :: fs)))
          = some ((digitsVal (ds.filter Char.isDigit) : ℚ)
              + (digitsVal fs : ℚ) / (10 : ℚ) ^ fs.length))
    ∧ (∀ s : String, (∀ c ∈ s.data, c.isDigit = false) →
        normalizeCurrencyCell (some s) = none)
    ∧ normalizeCurrencyCell none = none
    ∧ normalizeCurrencyCell (some "") = none
    ∧ normalizeCurrencyCell (some "R$ 1.234,56") = some ((123456 : ℚ) / 100)
    ∧ normalizeCurrencyCell (some " 987,10 ") = some ((98710 : ℚ) / 100) := by
  have hnodig : ∀ l : List Char, (∀ c ∈ l, c.isDigit = false) →
      parseDecimal
        ((((removeRS l).filter (fun c => c ≠ ' '))
            |>.filter keepCurrencyChar
            |>.filter (fun c => c ≠ '.'))
            |>.map (fun c => if c = ',' then '.' else c)) = none := by
    intro l hl
    refine parseDecimal_no_digit ?_
    intro c hc
    rcases List.mem_map.mp hc with ⟨c', hc', he⟩
    have hc'mem : c' ∈ l :=
      mem_removeRS (List.mem_of_mem_filter (List.mem_of_mem_filter
        (List.mem_of_mem_filter hc')))
    by_cases hcomma : c' = ','
    · rw [← he, hcomma]
      decide
    · rw [← he]
      simp only [if_neg hcomma]
      exact hl c' hc'mem
  refine ⟨fun xs => List.length_map xs _, ?_, ?_, ?_, ?_, ?_, ?_⟩
  · intro sym ds fs hds hne hfs
    exact normalizeCurrencyCell_wellformed hds hne hfs
  · intro s hs
    exact hnodig s.data hs
  · exact hnodig "None".data (by decide)
  · exact hnodig [] (by decide)
  · have e : normalizeCurrencyCell (some "R$ 1.234,56")
        = parseDecimal (['1', '2', '3', '4'] ++ '.' :: ['5', '6']) := by
      show parseDecimal _ = _
      congr 1
    rw [e, parseDecimal_int_frac (by decide) (by decide) (by decide)]
    congr 1
    rw [show digitsVal ['1', '2', '3', '4'] = 1234 from by decide,
      show digitsVal ['5', '6'] = 56 from by decide]
    norm_num
  · have e : normalizeCurrencyCell (some " 987,10 ")
        = parseDecimal (['9', '8', '7'] ++ '.' :: ['1', '0']) := by
      show parseDecimal _ = _
      congr 1
    rw [e, parseDecimal_int_frac (by decide) (by decide) (by decide)]
    congr 1
    rw [show digitsVal ['9', '8', '7'] = 987 from by decide,
      show digitsVal ['1', '0'] = 10 from by decide]
    norm_num

/-- C1 witness: the well-formed-string conjunct evaluated on the grouped
convention `R$ 1.234,56`. -/
theorem normalize_currency_spec_witness :
    normalizeCurrencyCell (some (String.mk
        ((if true then ['R', '$', ' '] else [])
          ++ ['1', '.', '2', '3', '4'] ++ ',' :: ['5', '6'])))
      = some ((digitsVal (['1', '.', '2', '3', '4'].filter Char.isDigit) : ℚ)
          + (digitsVal ['5', '6'] : ℚ) / (10 : ℚ) ^ (['5', '6'] : List Char).length) :=
  normalize_currency_spec.2.1 true ['1', '.', '2', '3', '4'] ['5', '6']
    (by decide) (by decide) (by decide)

/-- C2 counterexample: identifier extraction does not case-normalize the
matched prefix — the title `"oc 123"` yields `"oc123"`, not the claimed
`"OC123"`. -/
theorem extract_oc_identifier_no_case_normalization :
    extract_oc_identifier (some "oc 123") = some "oc123"
    ∧ extract_oc_identifier (some "oc 123") ≠ some "OC123" := by
  constructor <;> decide

/-- C2 (amended): extraction tries the case-insensitive patterns in
priority order (`OC` digits first, then `CTE` digits); on the first match
it returns the matched text with space characters removed and the original
letter case preserved (so `"OC 123"`, `"OC123"` yield `"OC123"` while
`"oc 123"` yields `"oc123"`); a non-string input or an unmatched title
yields null; at most one identifier is extracted per title. -/
theorem extract_oc_identifier_amended :
    extract_oc_identifier none = none
    ∧ (∀ (t : String) (m : List Char), searchCode ['O', 'C'] t.data = some m →
        extract_oc_identifier (some t)
          = some (String.mk (m.filter (fun c => c ≠ ' '))))
    ∧ (∀ (t : String) (m : List Char), searchCode ['O', 'C'] t.data = none →
        searchCode ['C', 'T', 'E'] t.data = some m →
        extract_oc_identifier (some t)
          = some (String.mk (m.filter (fun c => c ≠ ' '))))
    ∧ (∀ t : String, searchCode ['O', 'C'] t.data = none →
        searchCode ['C', 'T', 'E'] t.data = none →
        extract_oc_identifier (some t) = none)
    ∧ extract_oc_identifier (some "OC 123") = some "OC123"
    ∧ extract_oc_identifier (some "OC123") = some "OC123"
    ∧ extract_oc_identifier (some "oc 123") = some "oc123"
    ∧ extract_oc_identifier (some "Frete CTE 9 para OC 12") = some "OC12"
    ∧ extract_oc_identifier (some "CTE 77") = some "CTE77"
    ∧ extract_oc_identifier (some "sem codigo") = none := by
  refine ⟨rfl, ?_, ?_, ?_, by decide, by decide, by decide, by decide,
    by decide, by decide⟩
  · intro t m h
    simp only [extract_oc_identifier, h]
  · intro t m h1 h2
    simp only [extract_oc_identifier, h1, h2]
  · intro t h1 h2
    simp only [extract_oc_identifier, h1, h2]

/-- C2 witness: the first-priority conjunct evaluated on `"OC 5"`. -/
theorem extract_oc_identifier_amended_witness :
    extract_oc_identifier (some "OC 5")
      = some (String.mk (['O', 'C', ' ', '5'].filter (fun c => c ≠ ' '))) :=
  extract_oc_identifier_amended.2.1 "OC 5" ['O', 'C', ' ', '5'] (by decide)

/-- C10: `format_currency` maps a null (`None`/`NaN`) input to `"R$ 0,00"`,
which is exactly its output for the literal value `0.0`, so rendered
monetary KPIs cannot distinguish "no data" from an actual zero; and for
every non-null cent value it renders with a period as thousands separator
and a comma as decimal separator (the rendering `specCurrencyRender`
written from the claim's words). -/
theorem format_currency_null_equals_zero :
    format_currency none = "R$ 0,00"
    ∧ format_currency (some 0) = format_currency none
    ∧ ∀ z : ℤ, format_currency (some ((z : ℚ) / 100)) = specCurrencyRender z := by
  have hz : ∀ z : ℤ, format_currency (some ((z : ℚ) / 100)) = specCurrencyRender z := by
    intro z
    have h100 : ((z : ℚ) / 100) * 100 = (z : ℚ) := div_mul_cancel₀ _ (by norm_num)
    simp only [format_currency, h100, roundHalfEven_intCast, specCurrencyRender]
  refine ⟨rfl, ?_, hz⟩
  have h0 := hz 0
  rw [show (((0 : ℤ) : ℚ) / 100) = (0 : ℚ) by norm_num] at h0
  rw [h0]
  decide

/-- C5 counterexample: the claim says durations are rendered in the
template `{days}d {hours}h {minutes}m`, but the pipeline's formatter
(src/core/formatters.py, used by `load_datasets`) renders 25.5 hours as
`"1 dias, 1 horas, 30 minutos"`, not `"1d 1h 30m"`. -/
theorem format_time_in_stage_not_dhm_template :
    format_time_in_stage (some ((51 : ℚ) / 2)) = "1 dias, 1 horas, 30 minutos"
    ∧ format_time_in_stage (some ((51 : ℚ) / 2)) ≠ "1d 1h 30m" := by
  have e : ((51 : ℚ) / 2) * 60 = (((1530 : ℤ) : ℤ) : ℚ) := by norm_num
  constructor <;>
    · simp only [format_time_in_stage, e, pyTrunc_intCast]
      decide

/-- C5 (amended): a null duration formats as `"N/A"`; a non-null duration
of `d` days, `hr` hours, `mi` minutes plus any sub-minute remainder is
broken down by floor division at each step (never rounded up), and is
rendered as `"{days} dias, {hrs} horas, {minutes} minutos"` by the
pipeline's formatter and as `"{days}d {hours}h {minutes}m"` by the
`src/app.py` variant. -/
theorem format_time_in_stage_floor_breakdown :
    format_time_in_stage none = "N/A"
    ∧ format_time_in_stage_app none = "N/A"
    ∧ ∀ (d hr mi : ℕ) (frac : ℚ), hr < 24 → mi < 60 → 0 ≤ frac → frac < 1/60 →
        format_time_in_stage (some ((d * 24 + hr : ℚ) + mi / 60 + frac))
          = Nat.repr d ++ " dias, " ++ Nat.repr hr ++ " horas, "
            ++ Nat.repr mi ++ " minutos"
        ∧ format_time_in_stage_app (some ((d * 24 + hr : ℚ) + mi / 60 + frac))
          = Nat.repr d ++ "d " ++ Nat.repr hr ++ "h " ++ Nat.repr mi ++ "m" := by
  refine ⟨rfl, rfl, ?_⟩
  intro d hr mi frac h24 h60 h0 h1
  have e : (((d : ℚ) * 24 + hr) + (mi : ℚ) / 60 + frac) * 60
      = (((d : ℤ) * 1440 + hr * 60 + mi : ℤ) : ℚ) + frac * 60 := by
    push_cast
    ring
  have hf : ⌊frac * (60 : ℚ)⌋ = 0 := by
    rw [Int.floor_eq_zero_iff]
    constructor
    · positivity
    · have : frac * 60 < (1/60) * 60 := by
        exact mul_lt_mul_of_pos_right h1 (by norm_num)
      simpa using this
  have key : pyTrunc (((d * 24 + hr : ℚ) + mi / 60 + frac) * 60)
      = (d : ℤ) * 1440 + hr * 60 + mi := by
    rw [e, pyTrunc_of_nonneg (by positivity), add_comm, Int.floor_add_int, hf,
      zero_add]
  have e1 : ((d : ℤ) * 1440 + hr * 60 + mi) / 1440 = d := by omega
  have e2 : ((d : ℤ) * 1440 + hr * 60 + mi) % 1440 = hr * 60 + mi := by omega
  have e3 : ((hr : ℤ) * 60 + mi) / 60 = hr := by omega
  have e4 : ((hr : ℤ) * 60 + mi) % 60 = mi := by omega
  constructor
  · simp only [format_time_in_stage, key, e1, e2, e3, e4]
    rfl
  · simp only [format_time_in_stage_app, key, e1, e2, e3, e4]
    rfl

/-- C5 witness: the amended statement evaluated at 25.5 hours. -/
theorem format_time_in_stage_floor_breakdown_witness :
    format_time_in_stage (some ((51 : ℚ) / 2)) = "1 dias, 1 horas, 30 minutos" := by
  have h := (format_time_in_stage_floor_breakdown.2.2 1 1 30 0 (by norm_num)
    (by norm_num) le_rfl (by norm_num)).1
  norm_num at h
  rw [h]
  decide

/-- A row whose `Estado` is "Ganha" but whose monetary inputs are all
null (as produced by unparseable currency cells). -/
def wonNullRow : NRow :=
  { titulo := some "OC 1", estagio := some "Fechamento", estado := some "Ganha",
    valor := none, valorRecFechamento := none, prob := none,
    dataAbertura := none, dataFechamento := none,
    ocIdentifier := some "OC1", hourOfDayAbertura := -1 }

/-- The same row with an actual zero `Valor`. -/
def wonZeroRow : NRow := { wonNullRow with valor := some 0 }

theorem prodCell_none {r : NRow} (h : r.valor = none ∨ r.prob = none) :
    (match r.valor, r.prob with
      | some v, some p => some (v * (p / 100))
      | _, _ => none) = (none : Option ℚ) := by
  rcases hv : r.valor with _ | v <;> rcases hp : r.prob with _ | p <;> simp_all

theorem seriesSum_none_cons (xs : List (Option ℚ)) :
    seriesSum (none :: xs) = seriesSum xs := by
  simp [seriesSum]

theorem seriesSumMin1_none_cons (xs : List (Option ℚ)) :
    seriesSumMin1 (none :: xs) = seriesSumMin1 xs := by
  simp [seriesSumMin1]

theorem seriesSum_all_none {xs : List (Option ℚ)} (h : ∀ x ∈ xs, x = none) :
    seriesSum xs = 0 := by
  have e : xs.filterMap id = [] := by
    rw [List.filterMap_eq_nil_iff]
    exact h
  simp [seriesSum, e]

theorem seriesSumMin1_all_none {xs : List (Option ℚ)} (h : ∀ x ∈ xs, x = none) :
    seriesSumMin1 xs = none := by
  have e : xs.filterMap id = [] := by
    rw [List.filterMap_eq_nil_iff]
    exact h
  simp [seriesSumMin1, e]

/-- C6 counterexample: the won-value aggregate of `render_kpis` is a plain
`Series.sum()`; on a filtered table whose only won row has all-null
monetary inputs it returns the literal `0`, exactly the value it returns
when the won row carries an actual zero — so the all-null case is *not*
distinguishable from a literal zero, contradicting the claim for the
won-value aggregate. -/
theorem total_won_value_all_null_eq_zero :
    total_won_value [wonNullRow] = 0
    ∧ total_won_value [wonZeroRow] = 0
    ∧ total_won_value [wonNullRow] = total_won_value [wonZeroRow] := by
  have h1 : total_won_value [wonNullRow] = 0 := by
    simp [total_won_value, wonValues, seriesSum, wonNullRow]
  have h2 : total_won_value [wonZeroRow] = 0 := by
    simp [total_won_value, wonValues, seriesSum, wonZeroRow, wonNullRow]
  exact ⟨h1, h2, h1.trans h2.symm⟩

/-- C6 (amended): in all three KPI aggregates null entries contribute
nothing and are never coerced to zero; the pipeline-value and forecast
aggregates (`sum(min_count=1)`) return a non-numeric "no data" (`NaN`)
when every input is null, but the won-value aggregate (plain `sum()`)
returns the literal `0` when every input is null. -/
theorem kpi_sum_null_semantics :
    (∀ (df : List NRow) (r : NRow), r.valorRecFechamento = none → r.valor = none →
        total_won_value (r :: df) = total_won_value df)
    ∧ (∀ (df : List NRow) (r : NRow), r.valor = none →
        valor_pipeline (r :: df) = valor_pipeline df)
    ∧ (∀ (df : List NRow) (r : NRow), r.valor = none ∨ r.prob = none →
        valor_previsto (r :: df) = valor_previsto df)
    ∧ (∀ df : List NRow,
        (∀ r ∈ df, r.estado = some "Ganha" →
          r.valorRecFechamento = none ∧ r.valor = none) →
        total_won_value df = 0)
    ∧ (∀ df : List NRow, (∀ r ∈ df, pipelineMask r = true → r.valor = none) →
        valor_pipeline df = none)
    ∧ (∀ df : List NRow, (∀ r ∈ df, r.valor = none ∨ r.prob = none) →
        valor_previsto df = none) := by
  refine ⟨?_, ?_, ?_, ?_, ?_, ?_⟩
  · intro df r hrec hval
    simp only [total_won_value, wonValues, List.filter_cons]
    split
    · simp only [List.map_cons, hrec, hval]
      exact seriesSum_none_cons _
    · rfl
  · intro df r hval
    simp only [valor_pipeline, List.filter_cons]
    split
    · simp only [List.map_cons, hval]
      exact seriesSumMin1_none_cons _
    · rfl
  · intro df r h
    simp only [valor_previsto, List.map_cons, prodCell_none h]
    exact seriesSumMin1_none_cons _
  · intro df h
    refine seriesSum_all_none ?_
    intro x hx
    rcases List.mem_map.mp hx with ⟨r, hr, he⟩
    have hmem := List.mem_of_mem_filter hr
    have hg : r.estado = some "Ganha" := by
      have := List.of_mem_filter hr
      simpa using this
    rcases h r hmem hg with ⟨h1, h2⟩
    rw [← he, h1, h2]
  · intro df h
    refine seriesSumMin1_all_none ?_
    intro x hx
    rcases List.mem_map.mp hx with ⟨r, hr, he⟩
    have hmem := List.mem_of_mem_filter hr
    have hmask : pipelineMask r = true := List.of_mem_filter hr
    rw [← he]
    exact h r hmem hmask
  · intro df h
    refine seriesSumMin1_all_none ?_
    intro x hx
    rcases List.mem_map.mp hx with ⟨r, hr, he⟩
    rw [← he, prodCell_none (h r hr)]

/-- C6 witness: the all-null conjuncts evaluated on concrete one-row
tables. -/
theorem kpi_sum_null_semantics_witness :
    total_won_value [wonNullRow] = 0 ∧ valor_pipeline [wonNullRow] = none :=
  ⟨kpi_sum_null_semantics.2.2.2.1 [wonNullRow] (by decide),
   kpi_sum_null_semantics.2.2.2.2.1 [wonNullRow] (by decide)⟩

theorem takeDigits2_render2_nil {n : ℕ} (h : n ≤ 99) :
    takeDigits2 (render2 n) = some (n, []) := by
  have e := takeDigits2_render2 h []
  rwa [List.append_nil] at e

/-- C7 counterexample: the claim says a day/month/year string *optionally*
followed by a time-of-day parses to its timestamp, but the pipeline passes
the exact format `"%d/%m/%Y %H:%M:%S"`, so the valid date-only string
`"01/01/2024"` coerces to null. -/
theorem pdToDatetime_date_only_is_null :
    pdToDatetimeCell (some "01/01/2024") = none := by
  decide

/-- C7 (amended): date parsing is total and never raises; every
day/month/year string followed by a time-of-day in the exact
`"%d/%m/%Y %H:%M:%S"` layout that denotes a real calendar date parses to
the corresponding timestamp, while empty, malformed, differently
formatted, calendar-invalid, and time-less strings all become null. -/
theorem pdToDatetime_spec :
    pdToDatetimeCell none = none
    ∧ pdToDatetimeCell (some "") = none
    ∧ (∀ y m d hh mi ss : ℕ, 1 ≤ m → m ≤ 12 → 1 ≤ d → d ≤ daysInMonth y m →
        hh ≤ 23 → mi ≤ 59 → ss ≤ 59 → y ≤ 9999 →
        pdToDatetimeCell (some (renderDMY d m y hh mi ss))
          = some ⟨y, m, d, hh, mi, ss⟩)
    ∧ pdToDatetimeCell (some "31/02/2024 00:00:00") = none
    ∧ pdToDatetimeCell (some "2024-01-01 00:00:00") = none
    ∧ pdToDatetimeCell (some "not a date") = none := by
  refine ⟨rfl, by decide, ?_, by decide, by decide, by decide⟩
  intro y m d hh mi ss hm1 hm2 hd1 hd2 hhh hmi hss hy
  have hd99 : d ≤ 99 := le_trans hd2 (le_trans (daysInMonth_le y m) (by norm_num))
  have hm99 : m ≤ 99 := by omega
  have hh99 : hh ≤ 99 := by omega
  have hmi99 : mi ≤ 99 := by omega
  have hss99 : ss ≤ 99 := by omega
  have hdata : (renderDMY d m y hh mi ss).data
      = render2 d ++ '/' :: (render2 m ++ '/' :: (render4 y ++ ' ' ::
        (render2 hh ++ ':' :: (render2 mi ++ ':' :: render2 ss)))) := rfl
  simp only [pdToDatetimeCell, hdata, takeDigits2_render2 hd99, expectChar_cons,
    takeDigits2_render2 hm99, takeDigits4_render4 hy, takeDigits2_render2 hh99,
    takeDigits2_render2 hmi99, takeDigits2_render2_nil hss99]
  rw [if_pos ⟨trivial, hm1, hm2, hd1, hd2, hhh, hmi, hss⟩]

/-- C7 witness: the well-formed conjunct evaluated on
`"01/01/2024 10:00:00"`. -/
theorem pdToDatetime_spec_witness :
    pdToDatetimeCell (some (renderDMY 1 1 2024 10 0 0))
      = some ⟨2024, 1, 1, 10, 0, 0⟩ :=
  pdToDatetime_spec.2.2.1 2024 1 1 10 0 0 (by norm_num) (by norm_num)
    (by norm_num) (by decide) (by norm_num) (by norm_num) (by norm_num)
    (by norm_num)

/-- C3: for every row of the timeline table produced by one pipeline run,
a closed row's `Time_in_Stage` is exactly `(close − open)` in hours and an
open row's is exactly `(run_timestamp − open)` in hours, where the run
timestamp `now` is the single instant passed once to `load_datasets` (the
one `pd.to_datetime("now")` of the run) and shared by every open row. -/
theorem time_in_stage_spec :
    ∀ (rows : List RawRow) (now : DateTime) (t : TimelineRow),
      t ∈ (load_datasets rows now).2 →
      (t.dataFechamento = none →
        t.timeInStage = ((toEpoch now - toEpoch t.dataAbertura : ℤ) : ℚ) / 3600)
      ∧ (∀ f, t.dataFechamento = some f →
        t.timeInStage = ((toEpoch f - toEpoch t.dataAbertura : ℤ) : ℚ) / 3600) := by
  intro rows now t ht
  simp only [load_datasets] at ht
  rcases List.mem_map.mp ht with ⟨t', _, rfl⟩
  constructor
  · show t'.dataFechamento = none →
      timeInStageOf now t' = ((toEpoch now - toEpoch t'.dataAbertura : ℤ) : ℚ) / 3600
    intro hf
    simp [timeInStageOf, hf]
  · show ∀ f, t'.dataFechamento = some f →
      timeInStageOf now t' = ((toEpoch f - toEpoch t'.dataAbertura : ℤ) : ℚ) / 3600
    intro f hf
    simp [timeInStageOf, hf]

/-- C4: every input row appears in the main normalized table at its own
position as its normalization (retained unchanged by timeline exclusion);
a row whose derived identifier or parsed open date is null contributes no
timeline row, and a row with both non-null contributes a timeline row with
its index and fields. -/
theorem timeline_exclusion_retention :
    ∀ (rows : List RawRow) (now : DateTime) (j : ℕ) (r : RawRow),
      rows[j]? = some r →
      (load_datasets rows now).1[j]? = some (normalizeRow r)
      ∧ (((normalizeRow r).ocIdentifier = none
            ∨ (normalizeRow r).dataAbertura = none) →
          ∀ t ∈ (load_datasets rows now).2, t.idx ≠ j)
      ∧ (∀ (oc : String) (ab : DateTime),
          (normalizeRow r).ocIdentifier = some oc →
          (normalizeRow r).dataAbertura = some ab →
          ∃ t ∈ (load_datasets rows now).2, t.idx = j ∧ t.ocIdentifier = oc
            ∧ t.dataAbertura = ab ∧ t.estagio = (normalizeRow r).estagio
            ∧ t.dataFechamento = (normalizeRow r).dataFechamento) := by
  intro rows now j r hj
  have hdf : (load_datasets rows now).1 = rows.map normalizeRow := rfl
  have hget : (rows.map normalizeRow)[j]? = some (normalizeRow r) := by
    rw [List.getElem?_map, hj]
    rfl
  refine ⟨by rw [hdf, hget], ?_, ?_⟩
  · intro hnull t ht hidx
    simp only [load_datasets] at ht
    rcases List.mem_map.mp ht with ⟨t', ht', rfl⟩
    rw [List.mem_mergeSort] at ht'
    rcases timelinePreFrom_mem ht' with ⟨j', r', hj', hidx', hoc', hab', -⟩
    have hidx0 : t'.idx = j := hidx
    have hjj : j' = j := by omega
    subst hjj
    rw [hget] at hj'
    have he : normalizeRow r = r' := Option.some.inj hj'
    subst he
    rcases hnull with h | h
    · rw [h] at hoc'
      exact Option.noConfusion hoc'
    · rw [h] at hab'
      exact Option.noConfusion hab'
  · intro oc ab hoc hab
    have hmem := timelinePreFrom_mem_of (k := 0) hget hoc hab
    refine ⟨_, List.mem_map.mpr
      ⟨⟨0 + j, oc, (normalizeRow r).estagio, ab, (normalizeRow r).dataFechamento⟩,
        List.mem_mergeSort.mpr hmem, rfl⟩, ?_, rfl, rfl, rfl, rfl⟩
    show 0 + j = j
    omega

/-- C8: the timeline table is sorted lexicographically by identifier and,
within an identifier, by open timestamp ascending; it is a permutation of
the retained rows; and the sort is stable — two retained rows with equal
(identifier, open timestamp) keys keep their original relative order. -/
theorem timeline_sorted_stable :
    ∀ (rows : List RawRow) (now : DateTime),
      List.Pairwise (fun a b : TimelineRow =>
        a.ocIdentifier < b.ocIdentifier
        ∨ (a.ocIdentifier = b.ocIdentifier
            ∧ toEpoch a.dataAbertura ≤ toEpoch b.dataAbertura))
        (load_datasets rows now).2
      ∧ ((load_datasets rows now).2.map TimelineRow.toTRow).Perm
          (timelinePre (rows.map normalizeRow))
      ∧ (∀ a b : TRow, a.ocIdentifier = b.ocIdentifier →
          toEpoch a.dataAbertura = toEpoch b.dataAbertura →
          [a, b].Sublist (timelinePre (rows.map normalizeRow)) →
          [a, b].Sublist ((load_datasets rows now).2.map TimelineRow.toTRow)) := by
  intro rows now
  have hmapeq : (load_datasets rows now).2.map TimelineRow.toTRow
      = (timelinePre (rows.map normalizeRow)).mergeSort timelineLE := by
    simp only [load_datasets, List.map_map]
    exact List.map_id _
  refine ⟨?_, ?_, ?_⟩
  · have hs := @List.sorted_mergeSort TRow timelineLE timelineLE_trans
      timelineLE_total (timelinePre (rows.map normalizeRow))
    have hp : List.Pairwise (fun a b : TRow => timelineLE a b = true)
        ((load_datasets rows now).2.map TimelineRow.toTRow) := by
      rw [hmapeq]
      exact hs
    rw [List.pairwise_map] at hp
    refine hp.imp ?_
    intro a b h
    simpa [timelineLE, decide_eq_true_eq] using h
  · rw [hmapeq]
    exact List.mergeSort_perm _ _
  · intro a b h1 h2 hsub
    rw [hmapeq]
    exact List.sublist_mergeSort timelineLE_trans timelineLE_total
      (List.pairwise_pair.mpr (timelineLE_of_eq h1 h2)) hsub

/-- Concrete spreadsheet rows used to evaluate the pipeline theorems:
two open opportunities with the same identifier and open date. -/
def rawA : RawRow :=
  ⟨some "OC 1 primeiro", some "A", none, none, none,
   some "01/01/2024 00:00:00", none, none⟩

/-- Second concrete row, same identifier and open date as `rawA`. -/
def rawB : RawRow :=
  ⟨some "OC 1 segundo", some "B", none, none, none,
   some "01/01/2024 00:00:00", none, none⟩

/-- The timeline row derived from `rawA` at position 0. -/
def trowA : TRow := ⟨0, "OC1", some "A", ⟨2024, 1, 1, 0, 0, 0⟩, none⟩

/-- The timeline row derived from `rawB` at position 1. -/
def trowB : TRow := ⟨1, "OC1", some "B", ⟨2024, 1, 1, 0, 0, 0⟩, none⟩

/-- A fixed run timestamp for the witness evaluations. -/
def now0 : DateTime := ⟨2024, 1, 2, 0, 0, 0⟩

/-- The finished timeline row of `rawA` under run timestamp `now0`. -/
def tlA : TimelineRow :=
  { toTRow := trowA, timeInStage := timeInStageOf now0 trowA,
    tempoNoEstagio := format_time_in_stage (some (timeInStageOf now0 trowA)) }

/-- C3 witness: the open-row conjunct evaluated on the concrete
one-open-row pipeline run. -/
theorem time_in_stage_spec_witness :
    tlA.timeInStage = ((toEpoch now0 - toEpoch tlA.dataAbertura : ℤ) : ℚ) / 3600 := by
  have hpre : timelinePre [normalizeRow rawA] = [trowA] := by decide
  have e2 : (load_datasets [rawA] now0).2 = [tlA] := by
    simp only [load_datasets, hpre, List.mergeSort_singleton, List.map_cons,
      List.map_nil]
    rfl
  exact (time_in_stage_spec [rawA] now0 tlA
    (by rw [e2]; exact List.mem_cons_self _ _)).1 rfl

/-- C4 witness: the inclusion conjunct evaluated on the concrete row whose
identifier and open date are both non-null. -/
theorem timeline_exclusion_retention_witness :
    (load_datasets [rawA] now0).1[0]? = some (normalizeRow rawA)
    ∧ ∃ t ∈ (load_datasets [rawA] now0).2, t.idx = 0 ∧ t.ocIdentifier = "OC1"
        ∧ t.dataAbertura = ⟨2024, 1, 1, 0, 0, 0⟩
        ∧ t.estagio = (normalizeRow rawA).estagio
        ∧ t.dataFechamento = (normalizeRow rawA).dataFechamento :=
  ⟨(timeline_exclusion_retention [rawA] now0 0 rawA rfl).1,
   (timeline_exclusion_retention [rawA] now0 0 rawA rfl).2.2 "OC1"
     ⟨2024, 1, 1, 0, 0, 0⟩ (by decide) (by decide)⟩

/-- C8 witness: the stability conjunct evaluated on two concrete retained
rows with equal (identifier, open date) keys. -/
theorem timeline_sorted_stable_witness :
    ([trowA, trowB] : List TRow).Sublist
      ((load_datasets [rawA, rawB] now0).2.map TimelineRow.toTRow) := by
  have hpre : timelinePre (List.map normalizeRow [rawA, rawB])
      = [trowA, trowB] := by decide
  exact (timeline_sorted_stable [rawA, rawB] now0).2.2 trowA trowB rfl rfl
    (by rw [hpre])

/-- C9 (spec-modelled): the stage-group classification is total into the
fixed six-bucket type, is a function of the uppercased label only, checks
the keyword buckets in a fixed priority order with the first match
winning, and sends a null or unmatched label to the "other" bucket. -/
theorem classifyStage_spec :
    classifyStage none = StageGroup.other
    ∧ (∀ s t : String, s.data.map Char.toUpper = t.data.map Char.toUpper →
        classifyStage (some s) = classifyStage (some t))
    ∧ (∀ s : String, hasSub "QUALIFIC".data (s.data.map Char.toUpper) = true →
        classifyStage (some s) = StageGroup.qualification)
    ∧ (∀ s : String, hasSub "QUALIFIC".data (s.data.map Char.toUpper) = false →
        hasSub "NEGOCIA".data (s.data.map Char.toUpper) = true →
        classifyStage (some s) = StageGroup.negotiation)
    ∧ (∀ s : String, hasSub "QUALIFIC".data (s.data.map Char.toUpper) = false →
        hasSub "NEGOCIA".data (s.data.map Char.toUpper) = false →
        hasSub "FECHAMENTO".data (s.data.map Char.toUpper) = false →
        hasSub "GANH".data (s.data.map Char.toUpper) = false →
        hasSub "PERD".data (s.data.map Char.toUpper) = false →
        classifyStage (some s) = StageGroup.other)
    ∧ classifyStage (some "Qualificação Inicial") = StageGroup.qualification
    ∧ classifyStage (some "em negociação") = StageGroup.negotiation
    ∧ classifyStage (some "Fechamento") = StageGroup.closing
    ∧ classifyStage (some "Ganha") = StageGroup.won
    ∧ classifyStage (some "perdida") = StageGroup.lost
    ∧ classifyStage (some "???") = StageGroup.other := by
  refine ⟨rfl, ?_, ?_, ?_, ?_, by decide, by decide, by decide, by decide,
    by decide, by decide⟩
  · intro s t h
    simp only [classifyStage, h]
  · intro s h
    simp only [classifyStage, h]
    rfl
  · intro s h1 h2
    simp only [classifyStage, h1, h2]
    rfl
  · intro s h1 h2 h3 h4 h5
    simp only [classifyStage, h1, h2, h3, h4, h5]
    rfl

/-- C9 witness: the priority conjunct evaluated on a label containing both
a negotiation keyword and no qualification keyword. -/
theorem classifyStage_spec_witness :
    classifyStage (some "Negociação avançada") = StageGroup.negotiation :=
  classifyStage_spec.2.2.2.1 "Negociação avançada" (by decide) (by decide)

end BI
